import Mathlib

/-!
Verification of the two utilities in this repository:

* `appengine/main.py` — a one-route Flask counter service backed by redis.
* `tools/delete_all_infection_entities.py` — a producer/consumer script that
  enumerates all keys of kind "infection" and bulk-deletes them in batches
  of 500 through a thread pool.

The Python code is shallowly embedded below.  Keys are an opaque type
parameter `K`; the external datastore's `delete_multi` primitive and the
enumeration results are parameters of the embedded functions; thread-pool
futures are modelled by `Except E Nat` values (the resolved result of a
batch deletion, or the error it raised).
-/

namespace DeleteTool

/-- The state threaded through the producer's `for key in ...` loop
(`tools/delete_all_infection_entities.py`, lines 33-44).

* `batch` is the mutable list `batch`;
* `syncDeleted` records, in call order, the argument of every direct
  `delete_entities_batch(batch)` call made inside the loop (line 38);
* `submitted` records, in submission order, the argument of every
  `executor.submit(delete_entities_batch, batch)` call (lines 39 and 43);
  since each submission's future is immediately `put` on the shared queue
  (lines 40 and 44), `submitted` is also the queue content in order;
* `started` counts how many times a fresh empty batch was started
  (`batch = []`, lines 34 and 41). -/
structure ProducerState (K : Type) where
  batch : List K
  syncDeleted : List (List K)
  submitted : List (List K)
  started : Nat
deriving Repr, DecidableEq

/-- One iteration of the producer's loop body (lines 35-41):
append the key to the batch; if the batch has reached 500 keys, delete it
synchronously, submit it to the pool (hence onto the queue), and start a
fresh batch. -/
def producerStep {K : Type} (s : ProducerState K) (key : K) : ProducerState K :=
  let b := s.batch ++ [key]
  if 500 ≤ b.length then
    { batch := []
      syncDeleted := s.syncDeleted ++ [b]
      submitted := s.submitted ++ [b]
      started := s.started + 1 }
  else
    { s with batch := b }

/-- Producer state before the loop: `batch = []` (line 34) is the first
batch started. -/
def producerInit (K : Type) : ProducerState K :=
  { batch := [], syncDeleted := [], submitted := [], started := 1 }

/-- The producer (lines 29-44), as a function of the enumerated keys
`all_infection_entity_keys`: run the loop over every key, then submit the
remaining batch (possibly empty) to the pool and the queue (lines 43-44). -/
def producer {K : Type} (all_infection_entity_keys : List K) : ProducerState K :=
  let s := all_infection_entity_keys.foldl producerStep (producerInit K)
  { s with submitted := s.submitted ++ [s.batch] }

/-- `delete_entities_batch` (lines 61-63): perform the external
`client.delete_multi(batch)` call — which may raise — and on success return
`len(batch)`. -/
def delete_entities_batch {K E : Type} (delete_multi : List K → Except E Unit)
    (batch : List K) : Except E Nat := do
  _ ← delete_multi batch
  pure batch.length

/-- Reference chunking of a key list: the full 500-key groups, and the
remainder of fewer than 500 keys.  Used to characterise the producer's
output. -/
def splitFull {K : Type} (l : List K) : List (List K) × List K :=
  if h : 500 ≤ l.length then
    let p := splitFull (l.drop 500)
    (l.take 500 :: p.1, p.2)
  else
    ([], l)
termination_by l.length
decreasing_by
  simp only [List.length_drop]
  omega

/-- What the consumer run produced (lines 47-58): `printed` is, in print
order, each `(result, total_deleted)` pair that was interpolated into the
`print` statement on line 58; `total_deleted` is the final value of the
running total; `aborted` is true when `future.result()` raised and the loop
terminated abnormally. -/
structure ConsumerOutput where
  printed : List (Nat × Nat)
  total_deleted : Nat
  aborted : Bool
deriving Repr, DecidableEq

/-- The text of one console line (line 58):
`f"Deleted {result} keys. Total Deleted: {total_deleted}"`. -/
def progressLine (p : Nat × Nat) : String :=
  "Deleted " ++ toString p.1 ++ " keys. Total Deleted: " ++ toString p.2

/-- The consumer's drain loop (lines 52-58) over the handles currently on
the queue: pop a future, block on `future.result()` — which either yields
the batch's count or raises — add the count to the running total and print.
An exception is not caught: the loop stops there and drains nothing more. -/
def consumerLoop {E : Type} (total_deleted : Nat) (printed : List (Nat × Nat)) :
    List (Except E Nat) → ConsumerOutput
  | [] => { printed := printed, total_deleted := total_deleted, aborted := false }
  | f :: rest =>
    match f with
    | Except.ok result =>
        consumerLoop (total_deleted + result)
          (printed ++ [(result, total_deleted + result)]) rest
    | Except.error _ =>
        { printed := printed, total_deleted := total_deleted, aborted := true }

/-- The consumer (lines 47-58).  It first builds its own datastore client
and enumeration `all_infection_entity_keys` (lines 48-50) — passed here as
a parameter — and then drains the queue with `total_deleted = 0`.  The
enumeration is never read by the loop. -/
def consumer {K E : Type} (all_infection_entity_keys : List K)
    (futures_queue : List (Except E Nat)) : ConsumerOutput :=
  consumerLoop 0 [] futures_queue

/-- Specification helper: the `(result, running total)` pairs the consumer
prints when it resolves the results `rs` in order, starting from running
total `t`. -/
def consumerScan (t : Nat) : List Nat → List (Nat × Nat)
  | [] => []
  | r :: rs => (r, t + r) :: consumerScan (t + r) rs

end DeleteTool

namespace CounterService

/-- The redis client, reduced to what the service touches: an integer value
per key (redis `INCR` interprets the stored string as an integer). -/
structure RedisClient where
  store : String → Int

/-- `redis_client.incr(key, amount)`: atomically add `amount` to the value
at `key` and return the new value. -/
def incr (r : RedisClient) (key : String) (amount : Int) : Int × RedisClient :=
  let value := r.store key + amount
  (value, ⟨fun k => if k = key then value else r.store k⟩)

/-- The single route handler `index` (`appengine/main.py`, lines 17-20):
`value = redis_client.incr('counter', 1); return 'Value is {}'.format(value)`.
Returns the response body and the store state after the request. -/
def index (r : RedisClient) : String × RedisClient :=
  let vr := incr r "counter" 1
  ("Value is " ++ toString vr.1, vr.2)

end CounterService

namespace DeleteTool

/-! ### Structure of the producer's output -/

theorem splitFull_of_lt {K : Type} (l : List K) (h : l.length < 500) :
    splitFull l = ([], l) := by
  rw [splitFull]
  simp [Nat.not_le.mpr h]

theorem splitFull_of_le {K : Type} (l : List K) (h : 500 ≤ l.length) :
    splitFull l =
      ((l.take 500) :: (splitFull (l.drop 500)).1, (splitFull (l.drop 500)).2) := by
  rw [splitFull]
  simp [h]

theorem splitFull_flatten {K : Type} (l : List K) :
    (splitFull l).1.flatten ++ (splitFull l).2 = l := by
  induction l using splitFull.induct with
  | case1 l h ih =>
      rw [splitFull_of_le l h]
      simp only [List.flatten_cons, List.append_assoc, ih]
      exact List.take_append_drop 500 l
  | case2 l h =>
      rw [splitFull_of_lt l (by omega)]
      simp

theorem splitFull_full_length {K : Type} (l : List K) :
    ∀ b ∈ (splitFull l).1, b.length = 500 := by
  induction l using splitFull.induct with
  | case1 l h ih =>
      rw [splitFull_of_le l h]
      intro b hb
      rcases List.mem_cons.mp hb with hb | hb
      · subst hb
        simp [List.length_take]
        omega
      · exact ih b hb
  | case2 l h =>
      rw [splitFull_of_lt l (by omega)]
      simp

theorem splitFull_count {K : Type} (l : List K) :
    (splitFull l).1.length = l.length / 500 := by
  induction l using splitFull.induct with
  | case1 l h ih =>
      rw [splitFull_of_le l h]
      simp only [List.length_cons, ih, List.length_drop]
      omega
  | case2 l h =>
      rw [splitFull_of_lt l (by omega)]
      simp
      omega

theorem splitFull_rem_length {K : Type} (l : List K) :
    (splitFull l).2.length = l.length % 500 := by
  induction l using splitFull.induct with
  | case1 l h ih =>
      rw [splitFull_of_le l h]
      simp only [ih, List.length_drop]
      omega
  | case2 l h =>
      rw [splitFull_of_lt l (by omega)]
      show l.length = l.length % 500
      omega

/-- The producer's loop, run from any state whose current batch is not yet
full, produces exactly the full 500-key chunks of `batch ++ remaining keys`
as its synchronous deletes and its pool submissions, and leaves the
remainder in `batch`. -/
theorem foldl_producerStep {K : Type} (l : List K) :
    ∀ (b : List K) (D S : List (List K)) (c : Nat), b.length < 500 →
      List.foldl producerStep ⟨b, D, S, c⟩ l =
        ⟨(splitFull (b ++ l)).2, D ++ (splitFull (b ++ l)).1,
         S ++ (splitFull (b ++ l)).1, c + (splitFull (b ++ l)).1.length⟩ := by
  induction l with
  | nil =>
      intro b D S c hb
      rw [List.foldl_nil, List.append_nil, splitFull_of_lt b hb]
      simp
  | cons k rest ih =>
      intro b D S c hb
      rw [List.foldl_cons]
      show List.foldl producerStep (producerStep ⟨b, D, S, c⟩ k) rest = _
      have hcons : b ++ k :: rest = (b ++ [k]) ++ rest := by simp
      by_cases hfull : 500 ≤ (b ++ [k]).length
      · have hlen : (b ++ [k]).length = 500 := by
          simp only [List.length_append, List.length_singleton] at hfull ⊢
          omega
        have hstep : producerStep ⟨b, D, S, c⟩ k =
            ⟨[], D ++ [b ++ [k]], S ++ [b ++ [k]], c + 1⟩ := by
          simp only [producerStep]
          rw [if_pos hfull]
        rw [hstep, ih [] (D ++ [b ++ [k]]) (S ++ [b ++ [k]]) (c + 1) (by simp)]
        have hsplit : splitFull (b ++ k :: rest) =
            ((b ++ [k]) :: (splitFull rest).1, (splitFull rest).2) := by
          rw [hcons, splitFull_of_le _ (by rw [List.length_append, hlen]; omega),
            List.take_left' hlen, List.drop_left' hlen]
        rw [hsplit]
        simp only [List.nil_append, List.length_cons, List.append_assoc,
          List.singleton_append, ProducerState.mk.injEq, true_and, and_true]
        omega
      · have hstep : producerStep ⟨b, D, S, c⟩ k = ⟨b ++ [k], D, S, c⟩ := by
          simp only [producerStep]
          rw [if_neg hfull]
        rw [hstep, ih (b ++ [k]) D S c (Nat.not_le.mp hfull), hcons]

/-- Closed form of the producer's final state: the synchronous deletes are
the full chunks, the submissions (and queue contents) are the full chunks
followed by the remainder batch, and one batch was started per submission. -/
theorem producer_eq {K : Type} (keys : List K) :
    producer keys =
      ⟨(splitFull keys).2, (splitFull keys).1,
       (splitFull keys).1 ++ [(splitFull keys).2],
       1 + (splitFull keys).1.length⟩ := by
  show (let s := keys.foldl producerStep (producerInit K)
        { s with submitted := s.submitted ++ [s.batch] }) = _
  rw [show producerInit K = ⟨[], [], [], 1⟩ from rfl,
    foldl_producerStep keys [] [] [] 1 (by simp)]
  simp

end DeleteTool

namespace DeleteTool

/-! ### Behaviour of the consumer loop -/

theorem consumerLoop_nil_queue {E : Type} (t : Nat) (acc : List (Nat × Nat)) :
    consumerLoop t acc ([] : List (Except E Nat)) =
      { printed := acc, total_deleted := t, aborted := false } := rfl

theorem consumerLoop_ok_head {E : Type} (t : Nat) (acc : List (Nat × Nat)) (r : Nat)
    (rest : List (Except E Nat)) :
    consumerLoop t acc (Except.ok r :: rest) =
      consumerLoop (t + r) (acc ++ [(r, t + r)]) rest := rfl

theorem consumerLoop_error_head {E : Type} (t : Nat) (acc : List (Nat × Nat)) (e : E)
    (rest : List (Except E Nat)) :
    consumerLoop t acc (Except.error e :: rest) =
      { printed := acc, total_deleted := t, aborted := true } := rfl

theorem consumerScan_length (rs : List Nat) :
    ∀ t : Nat, (consumerScan t rs).length = rs.length := by
  induction rs with
  | nil => intro t; rfl
  | cons r rs ih =>
      intro t
      simp only [consumerScan, List.length_cons, ih]

/-- Draining a run of successfully resolved handles adds their results to
the running total and prints one `(result, total)` pair per handle. -/
theorem consumerLoop_ok_run {E : Type} (rs : List Nat) :
    ∀ (t : Nat) (acc : List (Nat × Nat)) (rest : List (Except E Nat)),
      consumerLoop t acc (rs.map Except.ok ++ rest) =
        consumerLoop (t + rs.sum) (acc ++ consumerScan t rs) rest := by
  induction rs with
  | nil =>
      intro t acc rest
      simp [consumerScan]
  | cons r rs ih =>
      intro t acc rest
      rw [List.map_cons, List.cons_append, consumerLoop_ok_head,
        ih (t + r) (acc ++ [(r, t + r)]) rest]
      simp [consumerScan, List.append_assoc, Nat.add_assoc]

/-- A queue of successfully resolved handles is drained completely. -/
theorem consumerLoop_all_ok {E : Type} (rs : List Nat) (t : Nat) (acc : List (Nat × Nat)) :
    consumerLoop t acc ((rs.map Except.ok : List (Except E Nat))) =
      { printed := acc ++ consumerScan t rs, total_deleted := t + rs.sum,
        aborted := false } := by
  have h := consumerLoop_ok_run rs t acc ([] : List (Except E Nat))
  rw [List.append_nil] at h
  rw [h, consumerLoop_nil_queue]

/-- Every printed pair extends the previous running total by its result. -/
theorem consumerLoop_chain {E : Type} (q : List (Except E Nat)) :
    ∀ (t : Nat) (acc : List (Nat × Nat)),
      List.Chain' (fun x y => y.2 = x.2 + y.1) acc →
      (∀ p ∈ acc.getLast?, p.2 = t) →
      List.Chain' (fun x y => y.2 = x.2 + y.1) (consumerLoop t acc q).printed := by
  induction q with
  | nil => intro t acc hc _; exact hc
  | cons f rest ih =>
      intro t acc hc hlast
      cases f with
      | error e =>
          rw [consumerLoop_error_head]
          exact hc
      | ok r =>
          rw [consumerLoop_ok_head]
          apply ih
          · rw [List.chain'_append]
            refine ⟨hc, List.chain'_singleton _, ?_⟩
            intro x hx y hy
            simp only [List.head?_cons, Option.mem_def, Option.some.injEq] at hy
            subst hy
            rw [hlast x hx]
          · intro p hp
            rw [List.getLast?_concat] at hp
            simp only [Option.mem_def, Option.some.injEq] at hp
            subst hp
            rfl

/-! ### Derived facts about the producer's submissions -/

theorem producer_submitted_flatten {K : Type} (keys : List K) :
    (producer keys).submitted.flatten = keys := by
  simp only [producer_eq]
  show ((splitFull keys).1 ++ [(splitFull keys).2]).flatten = keys
  rw [List.flatten_append]
  simp only [List.flatten_cons, List.flatten_nil, List.append_nil]
  exact splitFull_flatten keys

theorem producer_submitted_lengths {K : Type} (keys : List K) :
    (producer keys).submitted.map List.length =
      List.replicate (keys.length / 500) 500 ++ [keys.length % 500] := by
  simp only [producer_eq]
  show ((splitFull keys).1 ++ [(splitFull keys).2]).map List.length = _
  rw [List.map_append]
  congr 1
  · apply List.eq_replicate_iff.mpr
    constructor
    · rw [List.length_map, splitFull_count]
    · intro b hb
      rcases List.mem_map.mp hb with ⟨a, ha, rfl⟩
      exact splitFull_full_length keys a ha
  · rw [List.map_cons, List.map_nil, splitFull_rem_length]

end DeleteTool

namespace DeleteTool

/-! ### Claims about the deletion utility -/

/-- C1 (counterexample): the claim that the producer submits exactly
`ceil(N / 500)` batches to the worker pool is false at `N = 0`: the code
unconditionally submits the final batch after the loop, so an empty
enumeration yields one (empty) submission while `ceil(0 / 500) = 0`. -/
theorem C1_ceil_counterexample :
    ¬ ((producer ([] : List Nat)).submitted.length
        = (List.length ([] : List Nat) + 499) / 500) := by
  decide

/-- C1 (amended): for every enumeration of `N` keys, the producer submits
exactly `N / 500 + 1` batches to the worker pool (the `N / 500` full
batches of the loop plus the unconditional final batch), with every batch
except the last containing exactly 500 keys and the last containing
`N % 500` keys (possibly 0). -/
theorem C1_producer_batch_partition {K : Type} (keys : List K) :
    (producer keys).submitted.length = keys.length / 500 + 1 ∧
    (∀ b ∈ (producer keys).submitted.dropLast, b.length = 500) ∧
    (∃ last, (producer keys).submitted.getLast? = some last ∧
      last.length = keys.length % 500) := by
  simp only [producer_eq]
  refine ⟨?_, ?_, ?_⟩
  · show ((splitFull keys).1 ++ [(splitFull keys).2]).length = _
    rw [List.length_append, splitFull_count]
    rfl
  · show ∀ b ∈ ((splitFull keys).1 ++ [(splitFull keys).2]).dropLast, b.length = 500
    rw [List.dropLast_concat]
    exact splitFull_full_length keys
  · exact ⟨(splitFull keys).2, List.getLast?_concat _, splitFull_rem_length keys⟩

/-- C2: if the consumer resolves every handle the producer placed on the
shared queue — each resolving to the result of a successful
`delete_entities_batch` call on its batch — the final running total equals
`N`, and equivalently the sum of all pool-submitted batch handles' results
equals `N`. -/
theorem C2_consumer_total_equals_N {K E : Type} (keys : List K)
    (delete_multi : List K → Except E Unit)
    (hok : ∀ b, delete_multi b = Except.ok ()) :
    (consumer keys ((producer keys).submitted.map
        (delete_entities_batch delete_multi))).total_deleted = keys.length ∧
    ((producer keys).submitted.map List.length).sum = keys.length := by
  have hdel : ∀ b : List K, delete_entities_batch delete_multi b = Except.ok b.length := by
    intro b
    unfold delete_entities_batch
    rw [hok b]
    rfl
  have hsum : ((producer keys).submitted.map List.length).sum = keys.length := by
    rw [← List.length_flatten, producer_submitted_flatten]
  refine ⟨?_, hsum⟩
  have hq : (producer keys).submitted.map (delete_entities_batch delete_multi)
      = ((producer keys).submitted.map List.length).map Except.ok := by
    rw [List.map_map]
    exact List.map_congr_left (fun b _ => hdel b)
  show (consumerLoop 0 [] ((producer keys).submitted.map
      (delete_entities_batch delete_multi))).total_deleted = keys.length
  rw [hq, consumerLoop_all_ok]
  show 0 + ((producer keys).submitted.map List.length).sum = keys.length
  rw [Nat.zero_add, hsum]

/-- C2 witness: with three keys and an always-successful `delete_multi`,
the drained total is 3. -/
theorem C2_consumer_total_equals_N_witness :
    (consumer ([0, 1, 2] : List Nat) ((producer ([0, 1, 2] : List Nat)).submitted.map
        (delete_entities_batch (fun _ => (Except.ok () : Except Unit Unit))))).total_deleted
      = ([0, 1, 2] : List Nat).length ∧
    ((producer ([0, 1, 2] : List Nat)).submitted.map List.length).sum
      = ([0, 1, 2] : List Nat).length :=
  C2_consumer_total_equals_N [0, 1, 2] (fun _ => Except.ok ()) (fun _ => rfl)

/-- C3: the batches the producer passes synchronously to
`delete_entities_batch` inside its loop are exactly the pool-submitted
batches minus the final one — so every full batch (all of length 500) is
passed to the deletion operation twice, once synchronously and once via
pool submission, while the final batch (of length `N % 500`, never a full
batch, hence never among the synchronous deletions) is passed only once,
via its single submission. -/
theorem C3_full_batches_deleted_twice {K : Type} (keys : List K) :
    (producer keys).submitted = (producer keys).syncDeleted ++ [(producer keys).batch] ∧
    (∀ b ∈ (producer keys).syncDeleted, b.length = 500) ∧
    (producer keys).batch.length = keys.length % 500 ∧
    (producer keys).batch ∉ (producer keys).syncDeleted := by
  simp only [producer_eq, true_and]
  refine ⟨splitFull_full_length keys, splitFull_rem_length keys, ?_⟩
  intro hmem
  have h1 := splitFull_full_length keys _ hmem
  have h2 := splitFull_rem_length keys
  omega

/-- C4: across one producer run, concatenating the submitted batches in
order recovers the enumerated keys exactly (so every key is appended to
exactly one batch), and the number of batches started equals the number of
pool submissions (so every batch that is started is submitted exactly
once). -/
theorem C4_partition_and_single_submission {K : Type} (keys : List K) :
    (producer keys).submitted.flatten = keys ∧
    (producer keys).started = (producer keys).submitted.length := by
  refine ⟨producer_submitted_flatten keys, ?_⟩
  simp only [producer_eq]
  show 1 + (splitFull keys).1.length = ((splitFull keys).1 ++ [(splitFull keys).2]).length
  rw [List.length_append]
  simp only [List.length_cons, List.length_nil]
  omega

end DeleteTool

namespace CounterService

/-! ### Claim about the counter service -/

/-- C5: for every initial integer value `n` stored under key `"counter"`,
one GET request to `/` returns the plain-text body
`"Value is " ++ toString (n + 1)` and leaves `n + 1` stored under
`"counter"`. -/
theorem C5_counter_increment (r : RedisClient) (n : Int)
    (h : r.store "counter" = n) :
    (index r).1 = "Value is " ++ toString (n + 1) ∧
    (index r).2.store "counter" = n + 1 := by
  unfold index incr
  simp [h]

/-- C5 witness: a store holding 41 under every key answers
`"Value is 42"` and stores 42. -/
theorem C5_counter_increment_witness :
    (index ⟨fun _ => 41⟩).1 = "Value is " ++ toString ((41 : Int) + 1) ∧
    (index ⟨fun _ => 41⟩).2.store "counter" = 41 + 1 :=
  C5_counter_increment ⟨fun _ => 41⟩ 41 rfl

end CounterService

namespace DeleteTool

/-- C6: for an enumeration of exactly 1200 keys with every handle
resolving successfully, the pool-submitted batches have sizes
`[500, 500, 200]` in enumeration order and the console lines printed by
the consumer are, in order, the three expected `Deleted ... Total
Deleted: ...` lines. -/
theorem C6_scenario_1200 :
    (producer (List.range 1200)).submitted.map List.length = [500, 500, 200] ∧
    ((consumer (List.range 1200) ((producer (List.range 1200)).submitted.map
        (delete_entities_batch (fun _ => (Except.ok () : Except Unit Unit))))).printed.map
          progressLine
      = ["Deleted 500 keys. Total Deleted: 500",
         "Deleted 500 keys. Total Deleted: 1000",
         "Deleted 200 keys. Total Deleted: 1200"]) := by
  have h1 : (producer (List.range 1200)).submitted.map List.length = [500, 500, 200] := by
    rw [producer_submitted_lengths, List.length_range]
    decide
  have hq : (producer (List.range 1200)).submitted.map
        (delete_entities_batch (fun _ => (Except.ok () : Except Unit Unit)))
      = [Except.ok 500, Except.ok 500, Except.ok 200] := by
    have hcomp : (producer (List.range 1200)).submitted.map
          (delete_entities_batch (fun _ => (Except.ok () : Except Unit Unit)))
        = ((producer (List.range 1200)).submitted.map List.length).map Except.ok := by
      rw [List.map_map]
      exact List.map_congr_left (fun b _ => rfl)
    rw [hcomp, h1]
    rfl
  refine ⟨h1, ?_⟩
  show (consumerLoop 0 [] ((producer (List.range 1200)).submitted.map
      (delete_entities_batch (fun _ => (Except.ok () : Except Unit Unit))))).printed.map
        progressLine = _
  rw [hq]
  decide

/-- C7: whenever the underlying bulk-delete call succeeds on a batch of at
most 500 keys, `delete_entities_batch` returns exactly the batch's
length. -/
theorem C7_delete_batch_returns_length {K E : Type}
    (delete_multi : List K → Except E Unit) (batch : List K)
    (hsize : batch.length ≤ 500) (hok : delete_multi batch = Except.ok ()) :
    delete_entities_batch delete_multi batch = Except.ok batch.length := by
  unfold delete_entities_batch
  rw [hok]
  rfl

/-- C7 witness: a successful delete of a 3-key batch reports 3. -/
theorem C7_delete_batch_returns_length_witness :
    ([3, 1, 4] : List Nat).length ≤ 500 ∧
    delete_entities_batch (fun _ => (Except.ok () : Except Unit Unit)) ([3, 1, 4] : List Nat)
      = Except.ok ([3, 1, 4] : List Nat).length :=
  ⟨by decide,
   C7_delete_batch_returns_length (fun _ => Except.ok ()) [3, 1, 4] (by decide) rfl⟩

/-- C8: if the handle after a run of successfully resolved handles raises,
the consumer does not catch the error: the run's totals and lines are
exactly those of the successful prefix (one line per resolved handle, no
line and no total update for the failing batch), the loop terminates
abnormally, and whatever handles sit behind the failing one are never
drained — the output does not depend on them. -/
theorem C8_error_aborts_consumer {K E : Type} (enumKeys : List K) (pre : List Nat)
    (err : E) (post : List (Except E Nat)) :
    consumer enumKeys (pre.map Except.ok ++ Except.error err :: post) =
      { printed := consumerScan 0 pre, total_deleted := pre.sum, aborted := true } ∧
    (consumerScan 0 pre).length = pre.length := by
  refine ⟨?_, consumerScan_length pre 0⟩
  show consumerLoop 0 [] (pre.map Except.ok ++ Except.error err :: post) = _
  rw [consumerLoop_ok_run, consumerLoop_error_head]
  simp

/-- C9: the enumeration the consumer performs on its own never influences
its output: for a fixed queue, the consumer produces identical lines and
totals whatever that enumeration returns. -/
theorem C9_consumer_enumeration_dead {K E : Type} (enum1 enum2 : List K)
    (futures_queue : List (Except E Nat)) :
    consumer enum1 futures_queue = consumer enum2 futures_queue := rfl

/-- C10: each console line's running total equals the previous total plus
that line's (non-negative) batch count, so the printed totals are
monotonically non-decreasing. -/
theorem C10_totals_monotone {K E : Type} (enumKeys : List K)
    (q : List (Except E Nat)) :
    List.Chain' (fun x y => y.2 = x.2 + y.1) (consumer enumKeys q).printed ∧
    List.Chain' (fun a b => a ≤ b) ((consumer enumKeys q).printed.map Prod.snd) := by
  have hchain : List.Chain' (fun x y => y.2 = x.2 + y.1)
      (consumer enumKeys q).printed := by
    apply consumerLoop_chain q 0 []
    · exact List.chain'_nil
    · intro p hp
      simp at hp
  refine ⟨hchain, ?_⟩
  rw [List.chain'_map]
  exact hchain.imp (fun a b h => by omega)

end DeleteTool
